import Mathlib

/-!
Shallow embedding of the attendance-slot engine of the face-attendance
system (`attendance_manager.py`, `main_with_face_recognition.py`,
`new_api_endpoints.py`).

Modelling conventions:
* Times of day are records of hour/minute/second naturals; Python `time`
  objects compare lexicographically by (hour, minute, second), which is
  what `timeLe`/`timeLt` implement.
* Calendar dates handled as opaque strings by the manager are modelled as
  `String`; the per-student history routine, which iterates day by day,
  models dates as day numbers (`Nat`) with `weekday d = d % 7` and day 0 a
  Monday, so that `d % 7 = 6` means Sunday exactly as Python's
  `date.weekday() == 6`.
* SQLite tables are lists of row records; `INSERT` appends at the end,
  `COUNT(DISTINCT student_id)` is the length of the deduplicated list of
  student ids, `INSERT OR REPLACE` into `daily_attendance_summary`
  (UNIQUE on date, AUTOINCREMENT id) removes the rows with that date and
  appends a fresh row with the next autoincrement id.
* Human-readable message strings and time-format parsing of well-formed
  `HH:MM` / `HH:MM:SS` inputs are elided; results are inductive tags.
-/

/-- A time of day, h:m:s, as produced by `datetime.strptime(...).time()`. -/
structure Time where
  h : Nat
  m : Nat
  s : Nat
deriving DecidableEq, Repr

/-- Python `time` order, `a <= b`: lexicographic on (hour, minute, second). -/
def timeLe (a b : Time) : Bool :=
  a.h < b.h || (a.h = b.h && (a.m < b.m || (a.m = b.m && a.s ≤ b.s)))

/-- Python `time` order, `a < b`: lexicographic on (hour, minute, second). -/
def timeLt (a b : Time) : Bool :=
  a.h < b.h || (a.h = b.h && (a.m < b.m || (a.m = b.m && a.s < b.s)))

/-- `t.hour * 60 + t.minute`, the minute arithmetic used by
`get_next_slot` and `_calculate_time_remaining`. -/
def toMin (t : Time) : Nat := t.h * 60 + t.m

/-- One entry of the in-memory `attendance_slots` dict: a configured
attendance window (display name elided, unused by the verified logic). -/
structure SlotDef where
  slotId : String
  startTime : Time
  endTime : Time
deriving DecidableEq, Repr

/-- One row of the `session_configs` table (course_id elided, unused by
the verified logic). -/
structure SessionConfig where
  sessionType : String
  startTime : Time
  endTime : Time
  isActive : Bool
deriving DecidableEq, Repr

/-- One row of the `students` table (fields the attendance logic reads). -/
structure Student where
  id : Nat
  name : String
  studentIdStr : String
  status : String
deriving DecidableEq, Repr

/-- One row of the `slot_attendance` table. `confidence = none` models a
NULL `detection_confidence` (the manual-insert path does not set it). -/
structure SlotMark where
  student : Nat
  date : String
  slotId : String
  timeMarked : Time
  confidence : Option ℚ
  isManual : Bool
  manualReason : Option String
deriving DecidableEq, Repr

/-- One row of the legacy `attendance` table (compatibility mirror written
by `mark_attendance_with_slot`; no uniqueness constraint). -/
structure LegacyRow where
  student : Nat
  date : String
  timeIn : Time
  isManual : Bool
deriving DecidableEq, Repr

/-- One row of the `daily_attendance_summary` table, including the
AUTOINCREMENT `id` and the `last_updated` timestamp (modelled as an
abstract tick). -/
structure SummaryRow where
  id : Nat
  date : String
  totalStudents : Nat
  presentMorning : Nat
  presentAfternoon : Nat
  totalPresent : Nat
  lastUpdated : Nat
deriving DecidableEq, Repr

/-- The persistent state the attendance engine reads and writes:
the relevant tables plus the manager's cached `attendance_slots`
catalog and the autoincrement counter of the summary table. -/
structure DB where
  students : List Student
  attendanceSlots : List SlotDef
  sessionConfigs : List SessionConfig
  marks : List SlotMark
  legacy : List LegacyRow
  summary : List SummaryRow
  summaryNextId : Nat
  holidays : List String
deriving DecidableEq, Repr

/-- Does the closed slot window contain the time?  The test of
`get_current_slot`: `slot_info['start_time'] <= current_time <= slot_info['end_time']`. -/
def slotContains (s : SlotDef) (t : Time) : Bool :=
  timeLe s.startTime t && timeLe t s.endTime

/-- `AttendanceSlotManager.get_current_slot`: linear scan over the cached
catalog (insertion order = start-time order from the loading query),
returning the first slot whose closed window contains the time. -/
def getCurrentSlot (catalog : List SlotDef) (t : Time) : Option SlotDef :=
  catalog.find? (fun s => slotContains s t)

/-- Loop body of `AttendanceSlotManager.get_next_slot`: fold over the
catalog keeping the candidate with the strictly smallest wait among slots
whose start minute is strictly after the current minute. -/
def getNextSlotAux (cur : Nat) : List SlotDef → Option (SlotDef × Nat) → Option (SlotDef × Nat)
  | [], best => best
  | s :: rest, best =>
    if toMin s.startTime > cur then
      let w := toMin s.startTime - cur
      match best with
      | none => getNextSlotAux cur rest (some (s, w))
      | some (b, bw) =>
        if w < bw then getNextSlotAux cur rest (some (s, w))
        else getNextSlotAux cur rest (some (b, bw))
    else getNextSlotAux cur rest best

/-- `AttendanceSlotManager.get_next_slot`: earliest upcoming slot today
with its wait in minutes, `none` when no slot starts later today. -/
def getNextSlot (catalog : List SlotDef) (t : Time) : Option (SlotDef × Nat) :=
  getNextSlotAux (toMin t) catalog none

/-- Stable insertion of a slot into a start-time-ordered list; models the
`ORDER BY start_time` of the loading query (ties keep earlier rows first). -/
def insertByStart (s : SlotDef) : List SlotDef → List SlotDef
  | [] => [s]
  | x :: xs => if timeLe x.startTime s.startTime then x :: insertByStart s xs else s :: x :: xs

/-- Sort a slot list by start time (stable), modelling `ORDER BY start_time`. -/
def sortByStart (l : List SlotDef) : List SlotDef :=
  l.foldl (fun acc s => insertByStart s acc) []

/-- Python dict assignment `slots[slot_id] = v`: an existing key keeps its
position and takes the new value; a new key is appended. -/
def dictInsert (l : List SlotDef) (s : SlotDef) : List SlotDef :=
  if l.any (fun x => x.slotId = s.slotId) then
    l.map (fun x => if x.slotId = s.slotId then s else x)
  else l ++ [s]

/-- `AttendanceSlotManager.load_session_configs`: active `session_configs`
rows ordered by start time, keyed by lowercased session type. -/
def loadSessionConfigs (cfgs : List SessionConfig) : List SlotDef :=
  ((sortByStart ((cfgs.filter (fun c => c.isActive)).map
      (fun c => SlotDef.mk c.sessionType.toLower c.startTime c.endTime)))).foldl dictInsert []

/-- Outcome tags of `update_session_timing` (message strings elided). -/
inductive UpdateResult where
  | invalidRange
  | overlap
  | ok
  | notFound
deriving DecidableEq, Repr

/-- `AttendanceSlotManager.update_session_timing`: validates start < end,
checks overlap against the first active config of the hardcoded opposite
session (`afternoon` when updating `morning`, otherwise `morning`), then
updates every active row of the given session type and reloads the cached
catalog.  Inputs are already-parsed `HH:MM` times (second = 0 in the
program, which appends `':00'` on write). -/
def updateSessionTiming (db : DB) (sessionType : String) (newStart newEnd : Time) :
    UpdateResult × DB :=
  if ¬ timeLt newStart newEnd then (.invalidRange, db)
  else
    let other := if sessionType = "morning" then "afternoon" else "morning"
    let otherRow := db.sessionConfigs.find? (fun c => c.sessionType = other && c.isActive)
    let overlapHit :=
      match otherRow with
      | some oc => !(timeLe newEnd oc.startTime || timeLe oc.endTime newStart)
      | none => false
    if overlapHit then (.overlap, db)
    else
      let hit := db.sessionConfigs.any (fun c => c.sessionType = sessionType && c.isActive)
      if hit then
        let cfgs' := db.sessionConfigs.map (fun c =>
          if c.sessionType = sessionType && c.isActive then
            { c with startTime := newStart, endTime := newEnd }
          else c)
        (.ok, { db with sessionConfigs := cfgs', attendanceSlots := loadSessionConfigs cfgs' })
      else (.notFound, db)

/-- `COUNT(DISTINCT student_id)` over a list of marks. -/
def distinctStudents (ms : List SlotMark) : Nat :=
  ((ms.map (fun m => m.student)).dedup).length

/-- The distinct student ids with at least one mark on the date
(`SELECT DISTINCT student_id FROM slot_attendance WHERE date = ?`). -/
def presentIds (db : DB) (d : String) : List Nat :=
  ((db.marks.filter (fun m => m.date = d)).map (fun m => m.student)).dedup

/-- `AttendanceSlotManager.update_daily_summary`: recompute the counts for
the date from `students` and `slot_attendance` and `INSERT OR REPLACE`
the summary row; the REPLACE deletes any row with that date and inserts a
fresh row under the next AUTOINCREMENT id, stamped `last_updated = ts`. -/
def updateDailySummary (db : DB) (d : String) (ts : Nat) : DB :=
  let totalStudents := (db.students.filter (fun st => st.status = "active")).length
  let morning := distinctStudents (db.marks.filter (fun m => m.date = d && m.slotId = "morning"))
  let afternoon := distinctStudents (db.marks.filter (fun m => m.date = d && m.slotId = "afternoon"))
  let total := distinctStudents (db.marks.filter (fun m => m.date = d))
  { db with
      summary := (db.summary.filter (fun r => r.date ≠ d)) ++
        [⟨db.summaryNextId, d, totalStudents, morning, afternoon, total, ts⟩],
      summaryNextId := db.summaryNextId + 1 }

/-- The summary row stored for a date (`SELECT ... WHERE date = ?`). -/
def summaryRow (db : DB) (d : String) : Option SummaryRow :=
  db.summary.find? (fun r => r.date = d)

/-- Outcome tags of `mark_attendance_with_slot` (message strings and the
next-slot hint carried by the outside-slot result are elided). -/
inductive MarkResult where
  | success (slotId : String)
  | invalidSlot
  | outsideSlot
  | studentNotFound
  | alreadyMarked
deriving DecidableEq, Repr

/-- Tail of `mark_attendance_with_slot` once a slot id is resolved:
active-student lookup, duplicate check, insert into `slot_attendance`
plus the legacy `attendance` mirror, then the synchronous daily-summary
recomputation. -/
def markWithSlotId (db : DB) (now : Time) (today : String) (sid : Nat) (conf : ℚ)
    (isManual : Bool) (slotId : String) (ts : Nat) : MarkResult × DB :=
  match db.students.find? (fun st => st.id = sid && st.status = "active") with
  | none => (.studentNotFound, db)
  | some _ =>
    if db.marks.any (fun m => m.student = sid && m.date = today && m.slotId = slotId) then
      (.alreadyMarked, db)
    else
      let m : SlotMark := ⟨sid, today, slotId, now, some conf, isManual, none⟩
      let db1 := { db with
        marks := db.marks ++ [m],
        legacy := db.legacy ++ [⟨sid, today, now, isManual⟩] }
      (.success slotId, updateDailySummary db1 today ts)

/-- `AttendanceSlotManager.mark_attendance_with_slot`: resolve the slot
(a forced slot must exist in the cached catalog; otherwise the current
time must fall in some slot), then mark.  `now`/`today` model
`datetime.now()`, `ts` the commit timestamp of the summary row. -/
def markAttendanceWithSlot (db : DB) (now : Time) (today : String) (sid : Nat) (conf : ℚ)
    (forceSlot : Option String) (ts : Nat) : MarkResult × DB :=
  match forceSlot with
  | some fs =>
    match db.attendanceSlots.find? (fun s => s.slotId = fs) with
    | none => (.invalidSlot, db)
    | some _ => markWithSlotId db now today sid conf true fs ts
  | none =>
    match getCurrentSlot db.attendanceSlots now with
    | none => (.outsideSlot, db)
    | some s => markWithSlotId db now today sid conf false s.slotId ts

/-- Iterate `mark_attendance_with_slot` n times with identical parameters,
threading the state. -/
def markIter (db : DB) (now : Time) (today : String) (sid : Nat) (conf : ℚ)
    (forceSlot : Option String) (ts : Nat) : Nat → DB
  | 0 => db
  | n + 1 =>
    markIter (markAttendanceWithSlot db now today sid conf forceSlot ts).2
      now today sid conf forceSlot ts n

/-- The fields of the dict returned by `get_live_student_count` that the
verified claims are about. -/
structure LiveCount where
  totalStudents : Nat
  totalPresent : Nat
  totalAbsent : Int
  morningPresent : Nat
  afternoonPresent : Nat
deriving DecidableEq, Repr

/-- `AttendanceSlotManager.get_live_student_count` (count fields only):
active students, distinct students with a mark on the date, their
difference, and the per-slot distinct counts (the GROUP BY with default 0
equals a distinct count of the marks filtered to that slot id). -/
def getLiveStudentCount (db : DB) (d : String) : LiveCount :=
  let totalStudents := (db.students.filter (fun st => st.status = "active")).length
  let totalPresent := distinctStudents (db.marks.filter (fun m => m.date = d))
  { totalStudents := totalStudents
    totalPresent := totalPresent
    totalAbsent := (totalStudents : Int) - (totalPresent : Int)
    morningPresent := distinctStudents (db.marks.filter (fun m => m.date = d && m.slotId = "morning"))
    afternoonPresent := distinctStudents (db.marks.filter (fun m => m.date = d && m.slotId = "afternoon")) }

/-- Outcome tags of `mark_manual_session_attendance` (message strings elided). -/
inductive ManualResult where
  | alreadyMarked
  | holiday
  | ok
deriving DecidableEq, Repr

/-- `DatabaseManager.mark_manual_session_attendance`
(`main_with_face_recognition.py`): duplicate check first, then the
holiday check, then insert into `slot_attendance` with a NULL confidence,
`is_manual = true` and the given reason. -/
def markManualSessionAttendance (db : DB) (sid : Nat) (dateStr : String)
    (sessionType : String) (reason : Option String) (now : Time) : ManualResult × DB :=
  if db.marks.any (fun m => m.student = sid && m.date = dateStr && m.slotId = sessionType) then
    (.alreadyMarked, db)
  else if db.holidays.contains dateStr then
    (.holiday, db)
  else
    (.ok, { db with marks :=
      db.marks ++ [⟨sid, dateStr, sessionType, now, none, true, reason⟩] })

/-! Per-student history (`get_student_slot_attendance_data` in
`main_with_face_recognition.py`).  Dates are day numbers with
`weekday d = d % 7`, day 0 a Monday, so `d % 7 = 6` is Sunday, matching
Python's `date.weekday() == 6`.  A student's slot records are pairs
(date, slot_id). -/

/-- The session bucket of a slot record:
`'morning' if slot_id == 'morning' else 'afternoon'`. -/
def sessionOf (slotId : String) : String :=
  if slotId = "morning" then "morning" else "afternoon"

/-- Does the day's record set contain a mark bucketed into the session? -/
def hasSession (recs : List (Nat × String)) (d : Nat) (sess : String) : Bool :=
  recs.any (fun r => r.1 = d && sessionOf r.2 = sess)

/-- Per-day classification of `get_student_slot_attendance_data`
(the strings stored in `attendance_dict`): `"present"` when both the
morning and the afternoon bucket are marked, `"partial"` when exactly one
is, `"absent"` otherwise. -/
def classifyDay (recs : List (Nat × String)) (d : Nat) : String :=
  let m := hasSession recs d "morning"
  let a := hasSession recs d "afternoon"
  if m && a then "present" else if m || a then "partial" else "absent"

/-- Is the day counted as a working day?  The loop skips only Sundays
(`weekday() == 6`) and configured holidays. -/
def isWorkingDay (holidays : List Nat) (d : Nat) : Bool :=
  decide (d % 7 ≠ 6 ∧ d ∉ holidays)

/-- The working days the history loop iterates over, in order: every day
of `[startD, endD]` that is neither a Sunday nor a holiday. -/
def workingDays (holidays : List Nat) (startD endD : Nat) : List Nat :=
  ((List.range (endD + 1 - startD)).map (fun i => i + startD)).filter (isWorkingDay holidays)

/-- The aggregate statistics of `get_student_slot_attendance_data`. -/
structure HistoryStats where
  fullDays : Nat
  halfDays : Nat
  absentDays : Nat
  totalWorkingDays : Nat
  percentage : ℚ
deriving DecidableEq, Repr

/-- The counting pass of `get_student_slot_attendance_data`: tally each
working day by its classification; absent days are the remainder; the
percentage gives a half-day credit to a partial day. -/
def studentStats (recs : List (Nat × String)) (holidays : List Nat)
    (startD endD : Nat) : HistoryStats :=
  let wd := workingDays holidays startD endD
  let full := (wd.filter (fun d => classifyDay recs d = "present")).length
  let half := (wd.filter (fun d => classifyDay recs d = "partial")).length
  let working := wd.length
  { fullDays := full
    halfDays := half
    absentDays := working - full - half
    totalWorkingDays := working
    percentage :=
      if working = 0 then 0
      else ((full : ℚ) + (half : ℚ) * (1/2)) / (working : ℚ) * 100 }

/-- Modelled from the spec: the per-day classification the specification
describes — "full" exactly when every slot of the configured catalog is
marked on the day, "partial" when some but not all are, "absent" when
none are (compared against the code's `classifyDay`). -/
def classifyDaySpec (catalog : List String) (recs : List (Nat × String)) (d : Nat) : String :=
  let markedAll := catalog.all (fun sl => recs.any (fun r => r.1 = d && r.2 = sl))
  let markedSome := catalog.any (fun sl => recs.any (fun r => r.1 = d && r.2 = sl))
  if markedAll then "present" else if markedSome then "partial" else "absent"

example : timeLe ⟨8, 45, 0⟩ ⟨9, 0, 0⟩ = true := by decide
example : getCurrentSlot [⟨"morning", ⟨8,45,0⟩, ⟨9,30,0⟩⟩, ⟨"afternoon", ⟨13,45,0⟩, ⟨14,30,0⟩⟩] ⟨9,0,0⟩
    = some ⟨"morning", ⟨8,45,0⟩, ⟨9,30,0⟩⟩ := by decide
example : getNextSlot [⟨"morning", ⟨8,45,0⟩, ⟨9,30,0⟩⟩, ⟨"afternoon", ⟨13,45,0⟩, ⟨14,30,0⟩⟩] ⟨12,0,0⟩
    = some (⟨"afternoon", ⟨13,45,0⟩, ⟨14,30,0⟩⟩, 105) := by decide

/-! Helper lemmas shared by the claim theorems. -/

lemma findAppendNone {α} (p : α → Bool) (l₁ l₂ : List α) (h : l₁.find? p = none) :
    (l₁ ++ l₂).find? p = l₂.find? p := by
  induction l₁ with
  | nil => simp
  | cons a t ih =>
    cases hpa : p a with
    | true => rw [List.find?_cons_of_pos _ hpa] at h; exact absurd h (by simp)
    | false =>
      rw [List.find?_cons_of_neg _ (by simp [hpa])] at h
      rw [List.cons_append, List.find?_cons_of_neg _ (by simp [hpa])]
      exact ih h

/-- The daily-summary recomputation stores exactly the row recomputed from
the current marks and students, under a fresh autoincrement id. -/
lemma summaryRowUpdate (db : DB) (d : String) (ts : Nat) :
    summaryRow (updateDailySummary db d ts) d =
      some ⟨db.summaryNextId, d,
        (db.students.filter (fun st => st.status = "active")).length,
        distinctStudents (db.marks.filter (fun m => m.date = d && m.slotId = "morning")),
        distinctStudents (db.marks.filter (fun m => m.date = d && m.slotId = "afternoon")),
        distinctStudents (db.marks.filter (fun m => m.date = d)),
        ts⟩ := by
  unfold summaryRow updateDailySummary
  rw [findAppendNone]
  · simp [List.find?]
  · rw [List.find?_eq_none]
    intro r hr
    simp only [List.mem_filter, decide_eq_true_eq] at hr
    simp [hr.2]

lemma filterEraseOfNotPred {α} [DecidableEq α] (p : α → Bool) (m : α) (hp : p m = false) :
    ∀ l : List α, l.filter p = (l.erase m).filter p := by
  intro l
  induction l with
  | nil => simp
  | cons a t ih =>
    rw [List.erase_cons]
    by_cases ham : a = m
    · subst ham
      simp only [beq_self_eq_true, if_pos]
      rw [List.filter_cons_of_neg]
      simp [hp]
    · have hne : (a == m) = false := by simp [ham]
      simp only [hne, Bool.false_eq_true, if_neg, not_false_iff]
      rw [List.filter_cons, List.filter_cons, ih]

/-! Claim theorems: query side (C9, C10) and summary idempotence (C4). -/

/-- C9: for every date, the live count returns
total_absent = total_students − total_present, where total_students counts
students with active status and total_present counts distinct students
having at least one attendance mark that day (so a student marked in only
one of two slots is present). -/
theorem live_count_absent_eq (db : DB) (d : String) :
    (getLiveStudentCount db d).totalAbsent =
      ((getLiveStudentCount db d).totalStudents : Int) -
        ((getLiveStudentCount db d).totalPresent : Int) ∧
    (getLiveStudentCount db d).totalStudents =
      (db.students.filter (fun st => st.status = "active")).length ∧
    (getLiveStudentCount db d).totalPresent = (presentIds db d).length ∧
    ∀ s : Nat, s ∈ presentIds db d ↔ ∃ m ∈ db.marks, m.date = d ∧ m.student = s := by
  refine ⟨rfl, rfl, rfl, ?_⟩
  intro s
  simp only [presentIds, List.mem_dedup, List.mem_map, List.mem_filter, decide_eq_true_eq]
  constructor
  · rintro ⟨m, ⟨hm, hd⟩, hs⟩
    exact ⟨m, hm, hd, hs⟩
  · rintro ⟨m, hm, hd, hs⟩
    exact ⟨m, ⟨hm, hd⟩, hs⟩

/-- A state with two active students and a single mark on the date. -/
def dbNineEx : DB :=
  ⟨[⟨1, "A", "S1", "active"⟩, ⟨2, "B", "S2", "active"⟩], [], [],
   [⟨1, "2025-10-12", "morning", ⟨9, 0, 0⟩, some 0, false, none⟩], [], [], 1, []⟩

/-- C9 witness: the theorem applied at a concrete state. -/
theorem live_count_absent_eq_app :
    (getLiveStudentCount dbNineEx "2025-10-12").totalAbsent =
      ((getLiveStudentCount dbNineEx "2025-10-12").totalStudents : Int) -
        ((getLiveStudentCount dbNineEx "2025-10-12").totalPresent : Int) :=
  (live_count_absent_eq dbNineEx "2025-10-12").1

/-- A state whose only mark on the date carries the slot id "evening". -/
def dbTenEx : DB :=
  ⟨[⟨1, "A", "S1", "active"⟩], [], [],
   [⟨1, "2025-10-12", "evening", ⟨10, 0, 0⟩, some 0, false, none⟩], [], [], 1, []⟩

/-- C10: the daily-summary recomputation fills its per-slot columns only
from the literal slot ids "morning" and "afternoon": a stored mark with
any other slot id is counted in total_present (its student is among the
distinct present ids) yet contributes to neither per-slot filter, and at
a concrete state with only such a mark the per-slot counts sum to less
than the marks present. -/
theorem daily_summary_unknown_slot_ids (db : DB) (d : String) (ts : Nat) :
    (∀ r, summaryRow (updateDailySummary db d ts) d = some r →
      r.totalPresent = (presentIds db d).length ∧
      ∀ m ∈ db.marks, m.date = d → m.slotId ≠ "morning" → m.slotId ≠ "afternoon" →
        m.student ∈ presentIds db d ∧
        db.marks.filter (fun x => x.date = d && x.slotId = "morning") =
          (db.marks.erase m).filter (fun x => x.date = d && x.slotId = "morning") ∧
        db.marks.filter (fun x => x.date = d && x.slotId = "afternoon") =
          (db.marks.erase m).filter (fun x => x.date = d && x.slotId = "afternoon")) ∧
    (∀ r, summaryRow (updateDailySummary dbTenEx "2025-10-12" 0) "2025-10-12" = some r →
      r.presentMorning + r.presentAfternoon < r.totalPresent) := by
  constructor
  · intro r hr
    rw [summaryRowUpdate] at hr
    cases hr
    refine ⟨rfl, ?_⟩
    intro m hm hd hsm hsa
    refine ⟨?_, ?_, ?_⟩
    · simp only [presentIds, List.mem_dedup, List.mem_map, List.mem_filter, decide_eq_true_eq]
      exact ⟨m, ⟨hm, hd⟩, rfl⟩
    · exact filterEraseOfNotPred _ m (by simp [hsm]) db.marks
    · exact filterEraseOfNotPred _ m (by simp [hsa]) db.marks
  · intro r hr
    rw [summaryRowUpdate] at hr
    cases hr
    decide

/-- C10 witness: at the concrete state the evening mark is counted in the
distinct present ids while the per-slot counts stay at zero. -/
theorem daily_summary_unknown_slot_ids_app :
    (1 : Nat) ∈ presentIds dbTenEx "2025-10-12" :=
  (((daily_summary_unknown_slot_ids dbTenEx "2025-10-12" 0).1
      _ (summaryRowUpdate dbTenEx "2025-10-12" 0)).2
    ⟨1, "2025-10-12", "evening", ⟨10, 0, 0⟩, some 0, false, none⟩
    (by decide) rfl (by decide) (by decide)).1

/-- A state with an empty summary table and autoincrement counter 1. -/
def dbFourEx : DB := ⟨[], [], [], [], [], [], 1, []⟩

/-- C4 counterexample: recomputing the daily summary twice in a row with
no intervening marks (even with the same timestamp) does not leave the
stored row bit-identical — the INSERT OR REPLACE assigns a fresh
autoincrement id, so the row after the second run differs. -/
theorem daily_summary_recompute_row_changes :
    summaryRow (updateDailySummary (updateDailySummary dbFourEx "2025-10-12" 7)
        "2025-10-12" 7) "2025-10-12" ≠
      summaryRow (updateDailySummary dbFourEx "2025-10-12" 7) "2025-10-12" := by
  decide

/-- The semantic count fields of the stored summary row for a date:
(date, total_students, present_morning, present_afternoon, total_present). -/
def summaryCounts (db : DB) (d : String) : Option (String × Nat × Nat × Nat × Nat) :=
  (summaryRow db d).map
    (fun r => (r.date, r.totalStudents, r.presentMorning, r.presentAfternoon, r.totalPresent))

/-- C4 amended: recomputing the daily summary twice in a row with no
intervening marks yields identical count fields (date, total_students,
present_morning, present_afternoon, total_present); only the stored row's
autoincrement id and last_updated stamp differ. -/
theorem daily_summary_recompute_counts_identical (db : DB) (d : String) (t₁ t₂ : Nat) :
    summaryCounts (updateDailySummary (updateDailySummary db d t₁) d t₂) d =
      summaryCounts (updateDailySummary db d t₁) d := by
  simp only [summaryCounts, summaryRowUpdate]
  rfl

/-! Claim theorems: catalog update (C3), manual marking vs holidays (C7),
per-student history classification (C8). -/

/-- The default two-slot configuration installed by `ensure_default_configs`. -/
def cfgsDefault : List SessionConfig :=
  [⟨"morning", ⟨8, 45, 0⟩, ⟨9, 30, 0⟩, true⟩, ⟨"afternoon", ⟨13, 45, 0⟩, ⟨14, 30, 0⟩, true⟩]

/-- A three-slot configuration: morning, afternoon and an extra active
evening session. -/
def cfgsThree : List SessionConfig :=
  [⟨"morning", ⟨8, 0, 0⟩, ⟨9, 0, 0⟩, true⟩, ⟨"afternoon", ⟨13, 0, 0⟩, ⟨14, 0, 0⟩, true⟩,
   ⟨"evening", ⟨16, 0, 0⟩, ⟨17, 0, 0⟩, true⟩]

/-- The cached catalog corresponding to `cfgsDefault`. -/
def slotsDefault : List SlotDef :=
  [⟨"morning", ⟨8, 45, 0⟩, ⟨9, 30, 0⟩⟩, ⟨"afternoon", ⟨13, 45, 0⟩, ⟨14, 30, 0⟩⟩]

/-- The cached catalog corresponding to `cfgsThree`. -/
def slotsThree : List SlotDef :=
  [⟨"morning", ⟨8, 0, 0⟩, ⟨9, 0, 0⟩⟩, ⟨"afternoon", ⟨13, 0, 0⟩, ⟨14, 0, 0⟩⟩,
   ⟨"evening", ⟨16, 0, 0⟩, ⟨17, 0, 0⟩⟩]

/-- A state whose catalog holds the three active slots of `cfgsThree`. -/
def dbThreeEx : DB := ⟨[], slotsThree, cfgsThree, [], [], [], 1, []⟩

/-- C3 counterexample: with three active slots, updating "evening" to
13:30–14:30 succeeds and changes the stored catalog although the new
window overlaps the other active slot "afternoon" (13:00–14:00) — the
overlap check consults only the hardcoded opposite session, not every
other active slot as the claim states. -/
theorem update_timing_misses_third_slot_overlap :
    (updateSessionTiming dbThreeEx "evening" ⟨13, 30, 0⟩ ⟨14, 30, 0⟩).1 = UpdateResult.ok ∧
    (⟨"afternoon", ⟨13, 0, 0⟩, ⟨14, 0, 0⟩, true⟩ : SessionConfig) ∈ dbThreeEx.sessionConfigs ∧
    (timeLe ⟨14, 30, 0⟩ ⟨13, 0, 0⟩ || timeLe ⟨14, 0, 0⟩ ⟨13, 30, 0⟩) = false ∧
    (updateSessionTiming dbThreeEx "evening" ⟨13, 30, 0⟩ ⟨14, 30, 0⟩).2.sessionConfigs ≠
      dbThreeEx.sessionConfigs := by
  decide

/-- C3 amended: updating a slot's timing validates new_start < new_end
(rejecting otherwise with an invalid-range error and leaving the stored
catalog unchanged) and checks overlap only against the first active
config of the hardcoded opposite session ("afternoon" when updating
"morning", otherwise "morning"), rejecting with an overlap error and an
unchanged catalog unless new_end <= other.start or new_start >= other.end;
in particular updating "afternoon" to 09:00-10:00 while "morning" is
08:45-09:30 fails with the catalog unchanged. -/
theorem update_timing_validations (db : DB) (st : String) (ns ne : Time) :
    (timeLt ns ne = false → updateSessionTiming db st ns ne = (.invalidRange, db)) ∧
    (∀ oc, timeLt ns ne = true →
      db.sessionConfigs.find?
          (fun c => c.sessionType = (if st = "morning" then "afternoon" else "morning") &&
            c.isActive) = some oc →
      (timeLe ne oc.startTime || timeLe oc.endTime ns) = false →
      updateSessionTiming db st ns ne = (.overlap, db)) := by
  constructor
  · intro h
    unfold updateSessionTiming
    simp [h]
  · intro oc hlt hfind hov
    unfold updateSessionTiming
    simp [hlt, hfind, hov]

/-- A state with the default two-slot configuration. -/
def dbMorAft : DB := ⟨[], slotsDefault, cfgsDefault, [], [], [], 1, []⟩

/-- C3 witness: the claim's own example — updating "afternoon" to
09:00–10:00 while "morning" is 08:45–09:30 is rejected as an overlap and
the state is unchanged. -/
theorem update_timing_validations_app :
    updateSessionTiming dbMorAft "afternoon" ⟨9, 0, 0⟩ ⟨10, 0, 0⟩ = (.overlap, dbMorAft) :=
  (update_timing_validations dbMorAft "afternoon" ⟨9, 0, 0⟩ ⟨10, 0, 0⟩).2
    ⟨"morning", ⟨8, 45, 0⟩, ⟨9, 30, 0⟩, true⟩ (by decide) (by decide) (by decide)

/-- A state with one active student, the default catalog, and the date
2025-10-12 configured as a holiday. -/
def dbSevenEx : DB :=
  ⟨[⟨1, "A", "S1", "active"⟩], slotsDefault, cfgsDefault, [], [], [], 1, ["2025-10-12"]⟩

/-- C7 counterexample: the forced-slot manual path
(`mark_attendance_with_slot` with `force_slot`, used by the manual-slot
API endpoint) performs no holiday check: on a configured holiday it
succeeds and writes a manual mark (here even outside the slot's window,
since slot-time validation is bypassed for forced marks). -/
theorem forced_slot_mark_ignores_holiday :
    dbSevenEx.holidays.contains "2025-10-12" = true ∧
    (markAttendanceWithSlot dbSevenEx ⟨10, 0, 0⟩ "2025-10-12" 1 0 (some "morning") 0).1 =
      MarkResult.success "morning" ∧
    (markAttendanceWithSlot dbSevenEx ⟨10, 0, 0⟩ "2025-10-12" 1 0 (some "morning") 0).2.marks =
      dbSevenEx.marks ++ [⟨1, "2025-10-12", "morning", ⟨10, 0, 0⟩, some 0, true, none⟩] := by
  decide

/-- C7 amended: manual marking via `mark_manual_session_attendance`
rejects a configured holiday with a holiday error and writes no mark
(provided the slot is not already marked, which is checked first), while
manual forced-slot marking via `mark_attendance_with_slot` performs no
holiday check at all. -/
theorem manual_session_mark_rejects_holiday (db : DB) (sid : Nat) (dateStr sess : String)
    (reason : Option String) (now : Time)
    (hnodup : db.marks.any
      (fun m => m.student = sid && m.date = dateStr && m.slotId = sess) = false)
    (hhol : db.holidays.contains dateStr = true) :
    markManualSessionAttendance db sid dateStr sess reason now = (.holiday, db) := by
  unfold markManualSessionAttendance
  have hmem : dateStr ∈ db.holidays := by simpa using hhol
  simp [hnodup, hmem]

/-- C7 witness: on the concrete holiday state the manual session path
fails with the holiday result and leaves the state unchanged. -/
theorem manual_session_mark_rejects_holiday_app :
    markManualSessionAttendance dbSevenEx 1 "2025-10-12" "morning" none ⟨10, 0, 0⟩ =
      (.holiday, dbSevenEx) :=
  manual_session_mark_rejects_holiday dbSevenEx 1 "2025-10-12" "morning" none ⟨10, 0, 0⟩
    (by decide) (by decide)

lemma sessionOfEqMorning (s : String) : sessionOf s = "morning" ↔ s = "morning" := by
  unfold sessionOf
  by_cases h : s = "morning" <;> simp [h]

lemma sessionOfEqAfternoon (s : String) : sessionOf s = "afternoon" ↔ s ≠ "morning" := by
  unfold sessionOf
  by_cases h : s = "morning" <;> simp [h]

/-- C8 counterexample: with a catalog whose only configured slot is
"morning", a day marked in "morning" has all configured slots marked —
"full" per the claim — but the code, which hardcodes the
morning/afternoon pair instead of reading the configured slots,
classifies the day as partial. -/
theorem classify_ignores_configured_catalog :
    classifyDay [(5, "morning")] 5 = "partial" ∧
    classifyDaySpec ["morning"] [(5, "morning")] 5 = "present" ∧
    ("partial" : String) ≠ "present" := by
  decide

/-- C8 amended: the history classifies each working day against the
hardcoded morning/afternoon pair, with every slot id other than "morning"
bucketed as "afternoon": a day is full ("present") exactly when a morning
mark and a non-morning mark both exist, partial exactly when exactly one
bucket is marked, absent when none; working days are the days of the
range that are neither Sundays nor configured holidays; the percentage
counts a partial day as half a day. -/
theorem student_history_classification (recs : List (Nat × String)) (holidays : List Nat)
    (startD endD d : Nat) :
    (d ∈ workingDays holidays startD endD ↔
      startD ≤ d ∧ d ≤ endD ∧ d % 7 ≠ 6 ∧ d ∉ holidays) ∧
    (classifyDay recs d = "present" ↔
      hasSession recs d "morning" = true ∧ hasSession recs d "afternoon" = true) ∧
    (classifyDay recs d = "partial" ↔
      ((hasSession recs d "morning" = true ∨ hasSession recs d "afternoon" = true) ∧
        ¬(hasSession recs d "morning" = true ∧ hasSession recs d "afternoon" = true))) ∧
    (classifyDay recs d = "absent" ↔
      hasSession recs d "morning" = false ∧ hasSession recs d "afternoon" = false) ∧
    (hasSession recs d "morning" = true ↔ ∃ r ∈ recs, r.1 = d ∧ r.2 = "morning") ∧
    (hasSession recs d "afternoon" = true ↔ ∃ r ∈ recs, r.1 = d ∧ r.2 ≠ "morning") ∧
    (studentStats recs holidays startD endD).totalWorkingDays =
      (workingDays holidays startD endD).length ∧
    (studentStats recs holidays startD endD).fullDays =
      ((workingDays holidays startD endD).filter
        (fun x => classifyDay recs x = "present")).length ∧
    (studentStats recs holidays startD endD).halfDays =
      ((workingDays holidays startD endD).filter
        (fun x => classifyDay recs x = "partial")).length ∧
    (studentStats recs holidays startD endD).percentage =
      (if (workingDays holidays startD endD).length = 0 then 0
       else (((studentStats recs holidays startD endD).fullDays : ℚ) +
          ((studentStats recs holidays startD endD).halfDays : ℚ) * (1/2)) /
          ((workingDays holidays startD endD).length : ℚ) * 100) := by
  refine ⟨?_, ?_, ?_, ?_, ?_, ?_, rfl, rfl, rfl, rfl⟩
  · unfold workingDays isWorkingDay
    simp only [List.mem_filter, List.mem_map, List.mem_range, decide_eq_true_eq]
    constructor
    · rintro ⟨⟨i, hi, rfl⟩, hw⟩
      exact ⟨Nat.le_add_left _ _, by omega, hw.1, hw.2⟩
    · rintro ⟨h1, h2, h3, h4⟩
      exact ⟨⟨d - startD, by omega, by omega⟩, h3, h4⟩
  · cases hm : hasSession recs d "morning" <;> cases ha : hasSession recs d "afternoon" <;>
      simp [classifyDay, hm, ha]
  · cases hm : hasSession recs d "morning" <;> cases ha : hasSession recs d "afternoon" <;>
      simp [classifyDay, hm, ha]
  · cases hm : hasSession recs d "morning" <;> cases ha : hasSession recs d "afternoon" <;>
      simp [classifyDay, hm, ha]
  · simp only [hasSession, List.any_eq_true, Bool.and_eq_true, decide_eq_true_eq,
      sessionOfEqMorning]
  · simp only [hasSession, List.any_eq_true, Bool.and_eq_true, decide_eq_true_eq,
      sessionOfEqAfternoon]

/-- A student's records: both buckets on day 0, morning only on day 1. -/
def recsEight : List (Nat × String) := [(0, "morning"), (0, "afternoon"), (1, "morning")]

/-- C8 witness: at the concrete records, day 0 (a Monday, not a holiday)
is a working day and is classified full. -/
theorem student_history_classification_app :
    classifyDay recsEight 0 = "present" ∧ (0 : Nat) ∈ workingDays [] 0 1 :=
  ⟨(student_history_classification recsEight [] 0 1 0).2.1.mpr ⟨by decide, by decide⟩,
   (student_history_classification recsEight [] 0 1 0).1.mpr
     ⟨by decide, by decide, by decide, by decide⟩⟩

/-! Claim theorems: slot resolution (C5, C6). -/

lemma timeLeRefl (t : Time) : timeLe t t = true := by
  simp [timeLe]

lemma getCurrentSlotCons (c : SlotDef) (rest : List SlotDef) (t : Time) :
    getCurrentSlot (c :: rest) t =
      if slotContains c t then some c else getCurrentSlot rest t := by
  unfold getCurrentSlot
  cases hc : slotContains c t <;> simp [List.find?, hc]

lemma getCurrentSlotSome (catalog : List SlotDef) (t : Time) :
    ∀ s, getCurrentSlot catalog t = some s → s ∈ catalog ∧ slotContains s t = true := by
  induction catalog with
  | nil => intro s h; simp [getCurrentSlot] at h
  | cons c rest ih =>
    intro s h
    rw [getCurrentSlotCons] at h
    by_cases hc : slotContains c t
    · rw [if_pos hc] at h
      cases h
      exact ⟨List.mem_cons_self _ _, hc⟩
    · rw [if_neg hc] at h
      obtain ⟨h1, h2⟩ := ih s h
      exact ⟨List.mem_cons_of_mem _ h1, h2⟩

lemma getCurrentSlotNone (catalog : List SlotDef) (t : Time) :
    getCurrentSlot catalog t = none ↔ ∀ s ∈ catalog, slotContains s t = false := by
  induction catalog with
  | nil => simp [getCurrentSlot]
  | cons c rest ih =>
    rw [getCurrentSlotCons]
    by_cases hc : slotContains c t
    · simp [hc]
    · simp only [if_neg hc, ih, List.mem_cons]
      constructor
      · intro h s hs
        rcases hs with hs | hs
        · subst hs
          exact Bool.not_eq_true _ ▸ (by simpa using hc)
        · exact h s hs
      · intro h s hs
        exact h s (Or.inr hs)

lemma findMinStart (t : Time) (l : List SlotDef) :
    ∀ s : SlotDef,
      l.Pairwise (fun a b => timeLe a.startTime b.startTime = true) →
      getCurrentSlot l t = some s →
      ∀ s' ∈ l, slotContains s' t = true → timeLe s.startTime s'.startTime = true := by
  induction l with
  | nil => intro s _ h; simp [getCurrentSlot] at h
  | cons c rest ih =>
    intro s hp hfind s' hmem hcont
    rw [List.pairwise_cons] at hp
    rw [getCurrentSlotCons] at hfind
    by_cases hc : slotContains c t
    · rw [if_pos hc] at hfind
      cases hfind
      rcases List.mem_cons.mp hmem with h | h
      · subst h
        exact timeLeRefl _
      · exact hp.1 s' h
    · rw [if_neg hc] at hfind
      rcases List.mem_cons.mp hmem with h | h
      · subst h
        exact absurd hcont hc
      · exact ih s hp.2 hfind s' h hcont

/-- C5: over a catalog ordered by start time (as the loading query
produces), `get_current_slot` returns none exactly when no slot's closed
window contains the query time, and otherwise returns a containing slot
of the catalog whose start time is earliest among all containing slots
(the first in start-time order). -/
theorem current_slot_first_by_start (catalog : List SlotDef) (t : Time)
    (hs : catalog.Pairwise (fun a b => timeLe a.startTime b.startTime = true)) :
    (getCurrentSlot catalog t = none ↔ ∀ s ∈ catalog, slotContains s t = false) ∧
    ∀ s, getCurrentSlot catalog t = some s →
      s ∈ catalog ∧ slotContains s t = true ∧
      ∀ s' ∈ catalog, slotContains s' t = true → timeLe s.startTime s'.startTime = true := by
  constructor
  · exact getCurrentSlotNone catalog t
  · intro s hfind
    obtain ⟨h1, h2⟩ := getCurrentSlotSome catalog t s hfind
    exact ⟨h1, h2, findMinStart t catalog s hs hfind⟩

/-- C5 witness: at 09:00 over the default catalog the morning slot is
returned; it is in the catalog and contains the time. -/
theorem current_slot_first_by_start_app :
    getCurrentSlot slotsDefault ⟨9, 0, 0⟩ = some ⟨"morning", ⟨8, 45, 0⟩, ⟨9, 30, 0⟩⟩ ∧
    (⟨"morning", ⟨8, 45, 0⟩, ⟨9, 30, 0⟩⟩ : SlotDef) ∈ slotsDefault ∧
    slotContains ⟨"morning", ⟨8, 45, 0⟩, ⟨9, 30, 0⟩⟩ ⟨9, 0, 0⟩ = true :=
  ⟨by decide,
   ((current_slot_first_by_start slotsDefault ⟨9, 0, 0⟩ (by decide)).2 _ (by decide)).1,
   ((current_slot_first_by_start slotsDefault ⟨9, 0, 0⟩ (by decide)).2 _ (by decide)).2.1⟩

lemma getNextSlotAuxSpec (cur : Nat) (l : List SlotDef) :
    ∀ best : Option (SlotDef × Nat),
      (∀ b bw, best = some (b, bw) → cur < toMin b.startTime ∧ bw = toMin b.startTime - cur) →
      (getNextSlotAux cur l best = none →
        best = none ∧ ∀ s ∈ l, ¬ cur < toMin s.startTime) ∧
      (∀ r w, getNextSlotAux cur l best = some (r, w) →
        (cur < toMin r.startTime ∧ w = toMin r.startTime - cur) ∧
        (r ∈ l ∨ best = some (r, w)) ∧
        (∀ s ∈ l, cur < toMin s.startTime → w ≤ toMin s.startTime - cur) ∧
        (∀ b bw, best = some (b, bw) → w ≤ bw)) := by
  induction l with
  | nil =>
    intro best hbest
    constructor
    · intro h
      exact ⟨by simpa [getNextSlotAux] using h, by simp⟩
    · intro r w h
      simp only [getNextSlotAux] at h
      refine ⟨hbest r w h, Or.inr h, by simp, ?_⟩
      intro b bw hb
      rw [h] at hb
      cases hb
      exact Nat.le_refl w
  | cons c rest ih =>
    intro best hbest
    by_cases hc : cur < toMin c.startTime
    · cases best with
      | none =>
        have hbest' : ∀ b bw, (some (c, toMin c.startTime - cur) : Option (SlotDef × Nat)) =
            some (b, bw) → cur < toMin b.startTime ∧ bw = toMin b.startTime - cur := by
          intro b bw hb
          cases hb
          exact ⟨hc, rfl⟩
        have heq : getNextSlotAux cur (c :: rest) none =
            getNextSlotAux cur rest (some (c, toMin c.startTime - cur)) := by
          simp only [getNextSlotAux, if_pos hc]
        obtain ⟨ihn, ihs⟩ := ih (some (c, toMin c.startTime - cur)) hbest'
        constructor
        · intro h
          rw [heq] at h
          exact absurd (ihn h).1 (by simp)
        · intro r w h
          rw [heq] at h
          obtain ⟨p1, p2, p3, p4⟩ := ihs r w h
          refine ⟨p1, ?_, ?_, ?_⟩
          · rcases p2 with hm | hb
            · exact Or.inl (List.mem_cons_of_mem _ hm)
            · cases hb
              exact Or.inl (List.mem_cons_self _ _)
          · intro s hmem hs
            rcases List.mem_cons.mp hmem with hmc | hmr
            · subst hmc
              exact p4 _ _ rfl
            · exact p3 s hmr hs
          · intro b bw hb
            simp at hb
      | some p =>
        obtain ⟨b0, bw0⟩ := p
        obtain ⟨hb0, hbw0⟩ := hbest b0 bw0 rfl
        by_cases hw : toMin c.startTime - cur < bw0
        · have hbest' : ∀ b bw, (some (c, toMin c.startTime - cur) : Option (SlotDef × Nat)) =
              some (b, bw) → cur < toMin b.startTime ∧ bw = toMin b.startTime - cur := by
            intro b bw hb
            cases hb
            exact ⟨hc, rfl⟩
          have heq : getNextSlotAux cur (c :: rest) (some (b0, bw0)) =
              getNextSlotAux cur rest (some (c, toMin c.startTime - cur)) := by
            simp only [getNextSlotAux, if_pos hc, if_pos hw]
          obtain ⟨ihn, ihs⟩ := ih (some (c, toMin c.startTime - cur)) hbest'
          constructor
          · intro h
            rw [heq] at h
            exact absurd (ihn h).1 (by simp)
          · intro r w h
            rw [heq] at h
            obtain ⟨p1, p2, p3, p4⟩ := ihs r w h
            refine ⟨p1, ?_, ?_, ?_⟩
            · rcases p2 with hm | hb
              · exact Or.inl (List.mem_cons_of_mem _ hm)
              · cases hb
                exact Or.inl (List.mem_cons_self _ _)
            · intro s hmem hs
              rcases List.mem_cons.mp hmem with hmc | hmr
              · subst hmc
                exact p4 _ _ rfl
              · exact p3 s hmr hs
            · intro b bw hb
              cases hb
              exact Nat.le_trans (p4 _ _ rfl) (Nat.le_of_lt hw)
        · have heq : getNextSlotAux cur (c :: rest) (some (b0, bw0)) =
              getNextSlotAux cur rest (some (b0, bw0)) := by
            simp only [getNextSlotAux, if_pos hc, if_neg hw]
          obtain ⟨ihn, ihs⟩ := ih (some (b0, bw0)) (by intro b bw hb; cases hb; exact ⟨hb0, hbw0⟩)
          constructor
          · intro h
            rw [heq] at h
            exact absurd (ihn h).1 (by simp)
          · intro r w h
            rw [heq] at h
            obtain ⟨p1, p2, p3, p4⟩ := ihs r w h
            refine ⟨p1, ?_, ?_, p4⟩
            · rcases p2 with hm | hb
              · exact Or.inl (List.mem_cons_of_mem _ hm)
              · exact Or.inr hb
            · intro s hmem hs
              rcases List.mem_cons.mp hmem with hmc | hmr
              · subst hmc
                have h1 : w ≤ bw0 := p4 _ _ rfl
                have h2 : bw0 ≤ toMin s.startTime - cur := by
                  rw [hbw0] at hw ⊢
                  exact Nat.le_of_not_lt hw
                exact Nat.le_trans h1 h2
              · exact p3 s hmr hs
    · have heq : getNextSlotAux cur (c :: rest) best = getNextSlotAux cur rest best := by
        simp only [getNextSlotAux, if_neg hc]
      obtain ⟨ihn, ihs⟩ := ih best hbest
      constructor
      · intro h
        rw [heq] at h
        obtain ⟨h1, h2⟩ := ihn h
        refine ⟨h1, ?_⟩
        intro s hmem
        rcases List.mem_cons.mp hmem with hmc | hmr
        · subst hmc
          exact hc
        · exact h2 s hmr
      · intro r w h
        rw [heq] at h
        obtain ⟨p1, p2, p3, p4⟩ := ihs r w h
        refine ⟨p1, ?_, ?_, p4⟩
        · rcases p2 with hm | hb
          · exact Or.inl (List.mem_cons_of_mem _ hm)
          · exact Or.inr hb
        · intro s hmem hs
          rcases List.mem_cons.mp hmem with hmc | hmr
          · subst hmc
            exact absurd hs hc
          · exact p3 s hmr hs

/-- C6: `get_next_slot` considers exactly the slots whose start minute
(hour*60+minute, the granularity of the code's arithmetic) is strictly
later than the query's, returns none when no slot remains today, and
otherwise returns a catalog slot starting strictly later whose wait
start_minutes − current_minutes is minimal among all such slots. -/
theorem next_slot_min_wait (catalog : List SlotDef) (t : Time) :
    (getNextSlot catalog t = none ↔ ∀ s ∈ catalog, ¬ toMin t < toMin s.startTime) ∧
    (∀ r w, getNextSlot catalog t = some (r, w) →
      r ∈ catalog ∧ toMin t < toMin r.startTime ∧ w = toMin r.startTime - toMin t ∧
      ∀ s ∈ catalog, toMin t < toMin s.startTime → w ≤ toMin s.startTime - toMin t) := by
  have h := getNextSlotAuxSpec (toMin t) catalog none (by simp)
  constructor
  · constructor
    · intro hn
      exact (h.1 hn).2
    · intro hall
      cases hres : getNextSlot catalog t with
      | none => rfl
      | some p =>
        obtain ⟨r, w⟩ := p
        obtain ⟨⟨hr1, _⟩, hr2, _, _⟩ := h.2 r w hres
        rcases hr2 with hmem | hbest
        · exact absurd hr1 (hall r hmem)
        · simp at hbest
  · intro r w hres
    obtain ⟨⟨p1a, p1b⟩, p2, p3, _⟩ := h.2 r w hres
    rcases p2 with hmem | hbest
    · exact ⟨hmem, p1a, p1b, p3⟩
    · simp at hbest

/-- C6 witness: with the default catalog (afternoon starting 13:45), the
next slot at 12:00 is the afternoon slot with a wait of 105 minutes. -/
theorem next_slot_min_wait_app :
    getNextSlot slotsDefault ⟨12, 0, 0⟩ = some (⟨"afternoon", ⟨13, 45, 0⟩, ⟨14, 30, 0⟩⟩, 105) ∧
    (⟨"afternoon", ⟨13, 45, 0⟩, ⟨14, 30, 0⟩⟩ : SlotDef) ∈ slotsDefault ∧
    (105 : Nat) = toMin ⟨13, 45, 0⟩ - toMin ⟨12, 0, 0⟩ :=
  ⟨by decide,
   ((next_slot_min_wait slotsDefault ⟨12, 0, 0⟩).2 ⟨"afternoon", ⟨13, 45, 0⟩, ⟨14, 30, 0⟩⟩ 105
     (by decide)).1,
   ((next_slot_min_wait slotsDefault ⟨12, 0, 0⟩).2 ⟨"afternoon", ⟨13, 45, 0⟩, ⟨14, 30, 0⟩⟩ 105
     (by decide)).2.2.1⟩

/-! Claim theorems: the ledger write path (C1, C2). -/

/-- Number of `slot_attendance` rows for a (student_id, date, slot_id)
triple — the quantity the UNIQUE constraint bounds by one. -/
def tripleCount (ms : List SlotMark) (sid : Nat) (d sl : String) : Nat :=
  (ms.filter (fun m => m.student = sid && m.date = d && m.slotId = sl)).length

lemma tripleCountAppend (ms l₂ : List SlotMark) (sid : Nat) (d sl : String) :
    tripleCount (ms ++ l₂) sid d sl = tripleCount ms sid d sl + tripleCount l₂ sid d sl := by
  unfold tripleCount
  rw [List.filter_append, List.length_append]

lemma tripleCountZeroOfAnyFalse (ms : List SlotMark) (sid : Nat) (d sl : String)
    (h : ms.any (fun m => m.student = sid && m.date = d && m.slotId = sl) = false) :
    tripleCount ms sid d sl = 0 := by
  unfold tripleCount
  rw [List.length_eq_zero, List.filter_eq_nil_iff]
  rw [List.any_eq_false] at h
  exact h

lemma tripleCountSingleLe (m : SlotMark) (sid : Nat) (d sl : String) :
    tripleCount [m] sid d sl ≤ 1 := by
  unfold tripleCount
  exact List.length_filter_le _ _

lemma markWithSlotIdAlready (db : DB) (now : Time) (today : String) (sid : Nat) (conf : ℚ)
    (man : Bool) (slotId : String) (ts : Nat) (st : Student)
    (hstu : db.students.find? (fun st => st.id = sid && st.status = "active") = some st)
    (hdup : db.marks.any
      (fun m => m.student = sid && m.date = today && m.slotId = slotId) = true) :
    markWithSlotId db now today sid conf man slotId ts = (.alreadyMarked, db) := by
  unfold markWithSlotId
  rw [hstu]
  simp [hdup]

lemma markWithSlotIdSuccessInv (db : DB) (now : Time) (today : String) (sid : Nat) (conf : ℚ)
    (man : Bool) (slotId : String) (ts : Nat) (r : String) (db1 : DB)
    (h : markWithSlotId db now today sid conf man slotId ts = (.success r, db1)) :
    (∃ st, db.students.find? (fun st => st.id = sid && st.status = "active") = some st) ∧
    db.marks.any (fun m => m.student = sid && m.date = today && m.slotId = slotId) = false ∧
    r = slotId ∧
    db1 = updateDailySummary
      { db with marks := db.marks ++ [⟨sid, today, slotId, now, some conf, man, none⟩],
                legacy := db.legacy ++ [⟨sid, today, now, man⟩] } today ts := by
  unfold markWithSlotId at h
  cases hstu : db.students.find? (fun st => st.id = sid && st.status = "active") with
  | none =>
    rw [hstu] at h
    simp at h
  | some st =>
    rw [hstu] at h
    by_cases hdup : db.marks.any
        (fun m => m.student = sid && m.date = today && m.slotId = slotId) = true
    · rw [if_pos hdup] at h
      simp at h
    · rw [if_neg hdup] at h
      injection h with h1 h2
      injection h1 with h1
      exact ⟨⟨st, rfl⟩, Bool.not_eq_true _ ▸ hdup, h1.symm, h2.symm⟩

lemma markAttendanceForced (db : DB) (now : Time) (today : String) (sid : Nat) (conf : ℚ)
    (f : String) (ts : Nat) :
    markAttendanceWithSlot db now today sid conf (some f) ts =
      match db.attendanceSlots.find? (fun s => s.slotId = f) with
      | none => (.invalidSlot, db)
      | some _ => markWithSlotId db now today sid conf true f ts := rfl

lemma markAttendanceUnforced (db : DB) (now : Time) (today : String) (sid : Nat) (conf : ℚ)
    (ts : Nat) :
    markAttendanceWithSlot db now today sid conf none ts =
      match getCurrentSlot db.attendanceSlots now with
      | none => (.outsideSlot, db)
      | some s => markWithSlotId db now today sid conf false s.slotId ts := rfl

lemma markWithSlotIdCases (db : DB) (now : Time) (today : String) (sid : Nat) (conf : ℚ)
    (man : Bool) (slotId : String) (ts : Nat) :
    markWithSlotId db now today sid conf man slotId ts = (.studentNotFound, db) ∨
    markWithSlotId db now today sid conf man slotId ts = (.alreadyMarked, db) ∨
    (db.marks.any (fun m => m.student = sid && m.date = today && m.slotId = slotId) = false ∧
      markWithSlotId db now today sid conf man slotId ts =
        (.success slotId,
          updateDailySummary
            { db with marks := db.marks ++ [⟨sid, today, slotId, now, some conf, man, none⟩],
                      legacy := db.legacy ++ [⟨sid, today, now, man⟩] } today ts)) := by
  unfold markWithSlotId
  cases hstu : db.students.find? (fun st => st.id = sid && st.status = "active") with
  | none => exact Or.inl rfl
  | some st =>
    by_cases hdup : db.marks.any
        (fun m => m.student = sid && m.date = today && m.slotId = slotId) = true
    · right
      left
      rw [if_pos hdup]
    · right
      right
      refine ⟨by simpa using hdup, ?_⟩
      rw [if_neg hdup]

/-- Case analysis of `mark_attendance_with_slot`: every failure path
returns the state unchanged; the success path returns the state with
exactly one appended mark (and its legacy mirror) under the recomputed
summary. -/
lemma markAttendanceCases (db : DB) (now : Time) (today : String) (sid : Nat) (conf : ℚ)
    (fs : Option String) (ts : Nat) :
    ((markAttendanceWithSlot db now today sid conf fs ts).2 = db ∧
      ∀ sl, (markAttendanceWithSlot db now today sid conf fs ts).1 ≠ .success sl) ∨
    (∃ sl,
      db.marks.any (fun m => m.student = sid && m.date = today && m.slotId = sl) = false ∧
      markAttendanceWithSlot db now today sid conf fs ts =
        (.success sl,
          updateDailySummary
            { db with marks := db.marks ++ [⟨sid, today, sl, now, some conf, fs.isSome, none⟩],
                      legacy := db.legacy ++ [⟨sid, today, now, fs.isSome⟩] } today ts)) := by
  cases fs with
  | some f =>
    rw [markAttendanceForced]
    cases hslot : db.attendanceSlots.find? (fun s => s.slotId = f) with
    | none =>
      left
      exact ⟨rfl, fun sl h => MarkResult.noConfusion h⟩
    | some sd =>
      rcases markWithSlotIdCases db now today sid conf true f ts with h | h | ⟨hdup, h⟩
      · left
        rw [h]
        exact ⟨rfl, fun sl hc => MarkResult.noConfusion hc⟩
      · left
        rw [h]
        exact ⟨rfl, fun sl hc => MarkResult.noConfusion hc⟩
      · right
        refine ⟨f, hdup, ?_⟩
        show markWithSlotId db now today sid conf true f ts = _
        exact h.trans rfl
  | none =>
    rw [markAttendanceUnforced]
    cases hcur : getCurrentSlot db.attendanceSlots now with
    | none =>
      left
      exact ⟨rfl, fun sl h => MarkResult.noConfusion h⟩
    | some cs =>
      rcases markWithSlotIdCases db now today sid conf false cs.slotId ts with h | h | ⟨hdup, h⟩
      · left
        constructor
        · show (markWithSlotId db now today sid conf false cs.slotId ts).2 = db
          rw [h]
        · intro sl hc
          have hc' : (markWithSlotId db now today sid conf false cs.slotId ts).1 =
              MarkResult.success sl := hc
          rw [h] at hc'
          exact MarkResult.noConfusion hc'
      · left
        constructor
        · show (markWithSlotId db now today sid conf false cs.slotId ts).2 = db
          rw [h]
        · intro sl hc
          have hc' : (markWithSlotId db now today sid conf false cs.slotId ts).1 =
              MarkResult.success sl := hc
          rw [h] at hc'
          exact MarkResult.noConfusion hc'
      · right
        refine ⟨cs.slotId, hdup, ?_⟩
        show markWithSlotId db now today sid conf false cs.slotId ts = _
        exact h.trans rfl

lemma markSuccThenAlready (db : DB) (now : Time) (today : String) (sid : Nat) (conf : ℚ)
    (fs : Option String) (ts : Nat) (sl : String) (db1 : DB)
    (hs : markAttendanceWithSlot db now today sid conf fs ts = (.success sl, db1)) :
    markAttendanceWithSlot db1 now today sid conf fs ts = (.alreadyMarked, db1) := by
  cases fs with
  | some f =>
    rw [markAttendanceForced] at hs
    cases hslot : db.attendanceSlots.find? (fun s => s.slotId = f) with
    | none =>
      rw [hslot] at hs
      simp at hs
    | some sd =>
      rw [hslot] at hs
      obtain ⟨⟨st, hstu⟩, hdup, hr, hdb⟩ :=
        markWithSlotIdSuccessInv db now today sid conf true f ts sl db1 hs
      subst hdb
      rw [markAttendanceForced]
      have hslot1 : (updateDailySummary
          { db with marks := db.marks ++ [⟨sid, today, f, now, some conf, true, none⟩],
                    legacy := db.legacy ++ [⟨sid, today, now, true⟩] } today
            ts).attendanceSlots.find? (fun s => s.slotId = f) = some sd := hslot
      rw [hslot1]
      apply markWithSlotIdAlready _ _ _ _ _ _ _ _ st
      · exact hstu
      · show (db.marks ++ [(⟨sid, today, f, now, some conf, true, none⟩ : SlotMark)]).any
            (fun m => m.student = sid && m.date = today && m.slotId = f) = true
        simp [List.any_append]
  | none =>
    rw [markAttendanceUnforced] at hs
    cases hcur : getCurrentSlot db.attendanceSlots now with
    | none =>
      rw [hcur] at hs
      simp at hs
    | some cs =>
      rw [hcur] at hs
      obtain ⟨⟨st, hstu⟩, hdup, hr, hdb⟩ :=
        markWithSlotIdSuccessInv db now today sid conf false cs.slotId ts sl db1 hs
      subst hdb
      rw [markAttendanceUnforced]
      have hcur1 : getCurrentSlot (updateDailySummary
          { db with marks := db.marks ++ [⟨sid, today, cs.slotId, now, some conf, false, none⟩],
                    legacy := db.legacy ++ [⟨sid, today, now, false⟩] } today
            ts).attendanceSlots now = some cs := hcur
      rw [hcur1]
      apply markWithSlotIdAlready _ _ _ _ _ _ _ _ st
      · exact hstu
      · show (db.marks ++ [(⟨sid, today, cs.slotId, now, some conf, false, none⟩ : SlotMark)]).any
            (fun m => m.student = sid && m.date = today && m.slotId = cs.slotId) = true
        simp [List.any_append]

lemma markPreservesTripleBound (db : DB) (now : Time) (today : String) (sid : Nat) (conf : ℚ)
    (fs : Option String) (ts : Nat)
    (h : ∀ s d sl, tripleCount db.marks s d sl ≤ 1) :
    ∀ s d sl,
      tripleCount (markAttendanceWithSlot db now today sid conf fs ts).2.marks s d sl ≤ 1 := by
  rcases markAttendanceCases db now today sid conf fs ts with ⟨h1, _⟩ | ⟨sl0, hdup, heq⟩
  · rw [h1]
    exact h
  · intro s d sl
    rw [heq]
    show tripleCount (db.marks ++ [⟨sid, today, sl0, now, some conf, fs.isSome, none⟩]) s d sl ≤ 1
    rw [tripleCountAppend]
    by_cases htr : sid = s ∧ today = d ∧ sl0 = sl
    · obtain ⟨rfl, rfl, rfl⟩ := htr
      rw [tripleCountZeroOfAnyFalse db.marks _ _ _ hdup]
      simpa using tripleCountSingleLe _ _ _ _
    · have hz : tripleCount [⟨sid, today, sl0, now, some conf, fs.isSome, none⟩] s d sl = 0 := by
        unfold tripleCount
        rw [List.length_eq_zero, List.filter_eq_nil_iff]
        intro a ha
        rw [List.mem_singleton] at ha
        subst ha
        simp only [Bool.and_eq_true, decide_eq_true_eq]
        tauto
      rw [hz]
      simpa using h s d sl

lemma markIterBound (now : Time) (today : String) (sid : Nat) (conf : ℚ)
    (fs : Option String) (ts : Nat) :
    ∀ (n : Nat) (db : DB), (∀ s d sl, tripleCount db.marks s d sl ≤ 1) →
      ∀ s d sl, tripleCount (markIter db now today sid conf fs ts n).marks s d sl ≤ 1 := by
  intro n
  induction n with
  | zero =>
    intro db h
    exact h
  | succ k ih =>
    intro db h s d sl
    have hstep := markPreservesTripleBound db now today sid conf fs ts h
    have hk := ih (markAttendanceWithSlot db now today sid conf fs ts).2 hstep s d sl
    show tripleCount (markIter (markAttendanceWithSlot db now today sid conf fs ts).2
      now today sid conf fs ts k).marks s d sl ≤ 1
    exact hk

lemma markIterFixed (now : Time) (today : String) (sid : Nat) (conf : ℚ)
    (fs : Option String) (ts : Nat) (db1 : DB)
    (h : markAttendanceWithSlot db1 now today sid conf fs ts = (.alreadyMarked, db1)) :
    ∀ k, markIter db1 now today sid conf fs ts k = db1 := by
  intro k
  induction k with
  | zero => rfl
  | succ n ih =>
    show markIter (markAttendanceWithSlot db1 now today sid conf fs ts).2
      now today sid conf fs ts n = db1
    rw [h]
    exact ih

/-- C1: starting from a state where every (student_id, date, slot_id)
triple has at most one mark, any number of mark calls with identical
parameters leaves every triple with at most one mark; and once a call
succeeds, the very next identical call returns already-marked with the
state unchanged, and every further iteration leaves the state fixed. -/
theorem mark_attendance_unique_per_triple (db : DB) (now : Time) (today : String) (sid : Nat)
    (conf : ℚ) (fs : Option String) (ts : Nat)
    (h : ∀ s d sl, tripleCount db.marks s d sl ≤ 1) :
    (∀ n s d sl, tripleCount (markIter db now today sid conf fs ts n).marks s d sl ≤ 1) ∧
    (∀ sl db1, markAttendanceWithSlot db now today sid conf fs ts = (.success sl, db1) →
      markAttendanceWithSlot db1 now today sid conf fs ts = (.alreadyMarked, db1) ∧
      ∀ k, markIter db1 now today sid conf fs ts k = db1) := by
  constructor
  · intro n
    exact markIterBound now today sid conf fs ts n db h
  · intro sl db1 hs
    have hA := markSuccThenAlready db now today sid conf fs ts sl db1 hs
    exact ⟨hA, markIterFixed now today sid conf fs ts db1 hA⟩

/-- A fresh state: one active student, the default catalog, no marks. -/
def dbOneEx : DB :=
  ⟨[⟨1, "A", "S1", "active"⟩], slotsDefault, cfgsDefault, [], [], [], 1, []⟩

/-- C1 witness: three identical mark calls at 09:00 leave at most one
mark for the (1, 2025-10-13, morning) triple. -/
theorem mark_attendance_unique_per_triple_app :
    tripleCount (markIter dbOneEx ⟨9, 0, 0⟩ "2025-10-13" 1 (81/100) none 0 3).marks
      1 "2025-10-13" "morning" ≤ 1 :=
  (mark_attendance_unique_per_triple dbOneEx ⟨9, 0, 0⟩ "2025-10-13" 1 (81/100) none 0
    (by intro s d sl; simp [tripleCount, dbOneEx])).1 3 1 "2025-10-13" "morning"

/-- C2: a mark call that returns success appends exactly one attendance
mark (with the caller's confidence and the forced-manual flag) to the
`slot_attendance` state, and every failing call (invalid forced slot,
outside slot, unknown or inactive student, already marked) returns the
entire state unchanged. -/
theorem mark_writes_one_row_on_success (db : DB) (now : Time) (today : String) (sid : Nat)
    (conf : ℚ) (fs : Option String) (ts : Nat) :
    (∀ sl, (markAttendanceWithSlot db now today sid conf fs ts).1 = .success sl →
      (markAttendanceWithSlot db now today sid conf fs ts).2.marks =
        db.marks ++ [⟨sid, today, sl, now, some conf, fs.isSome, none⟩]) ∧
    ((∀ sl, (markAttendanceWithSlot db now today sid conf fs ts).1 ≠ .success sl) →
      (markAttendanceWithSlot db now today sid conf fs ts).2 = db) := by
  rcases markAttendanceCases db now today sid conf fs ts with ⟨h1, h2⟩ | ⟨sl0, hdup, heq⟩
  · constructor
    · intro sl hs
      exact absurd hs (h2 sl)
    · intro _
      exact h1
  · constructor
    · intro sl hs
      rw [heq] at hs ⊢
      cases hs
      rfl
    · intro hno
      exfalso
      apply hno sl0
      rw [heq]

/-- C2 witness: at a fresh state a call inside the morning window
succeeds and appends exactly one mark, while a call at 12:00 (outside
every slot) leaves the state unchanged. -/
theorem mark_writes_one_row_on_success_app :
    (markAttendanceWithSlot dbOneEx ⟨9, 0, 0⟩ "2025-10-13" 1 (81/100) none 0).2.marks =
      dbOneEx.marks ++
        [⟨1, "2025-10-13", "morning", ⟨9, 0, 0⟩, some (81/100), false, none⟩] ∧
    (markAttendanceWithSlot dbOneEx ⟨12, 0, 0⟩ "2025-10-13" 1 (81/100) none 0).2 = dbOneEx :=
  ⟨(mark_writes_one_row_on_success dbOneEx ⟨9, 0, 0⟩ "2025-10-13" 1 (81/100) none 0).1 "morning"
      (by decide),
   (mark_writes_one_row_on_success dbOneEx ⟨12, 0, 0⟩ "2025-10-13" 1 (81/100) none 0).2
      (by
        intro sl hcon
        have hout : (markAttendanceWithSlot dbOneEx ⟨12, 0, 0⟩ "2025-10-13" 1
            (81/100) none 0).1 = MarkResult.outsideSlot := by decide
        rw [hout] at hcon
        exact MarkResult.noConfusion hcon)⟩
